import Mathlib

/-!
Shallow embedding of the gas-lottery backend (the `server.js` variants of
this repository): the spreadsheet-backed data model, date-string handling,
phone normalization, the duplicate-draw check, draw recording, the history
query and the weighted prize selector, together with theorems checking the
natural-language specification against this code.

Modeling conventions:
* The service is deployed on a host whose timezone is UTC, so a JS `Date`'s
  local calendar fields coincide with its UTC fields; a `Date` value is
  modeled by the civil tuple `Civil` that the code writes into / reads from
  ISO strings (with the ISO `24:00:00` end-of-day form normalized where the
  code observes the day, in `toIsoDay`).
* Spreadsheet cells can be absent, so row fields are `Option String`
  (`none` models an `undefined` cell); JS `===` between a cell and a string
  is `· = some s`, and `x || ''` is `Option.getD · ""`.
* JS numbers only ever hold exact small integers (`parseInt` results) or
  prize rates; rates are modeled as `ℚ` (the claims checked here do not
  depend on binary floating-point rounding).
-/

namespace GasLottery

/-! ## Characters, whitespace, digits -/

/-- Whitespace class of JS regexes and `String.prototype.trim` (ASCII
whitespace plus no-break space; the exotic Unicode spaces never occur in
this system's data). -/
def isJsSpace (c : Char) : Bool :=
  c == ' ' || c == '\t' || c == '\n' || c == '\r' ||
  c.val == 11 || c.val == 12 || c.val == 160

/-- JS `String.prototype.trim`. -/
def jsTrim (s : String) : String :=
  String.mk (((s.data.dropWhile isJsSpace).reverse.dropWhile isJsSpace).reverse)

/-- Numeric value of a list of decimal digit characters. -/
def digitVal (cs : List Char) : Nat :=
  cs.foldl (fun a c => 10 * a + (c.toNat - 48)) 0

/-- Match `\d{4}` (exactly four digits, the next character not a digit). -/
def exact4 (cs : List Char) : Option (Nat × List Char) :=
  let ds := cs.takeWhile Char.isDigit
  if ds.length = 4 then some (digitVal ds, cs.drop 4) else none

/-- Match `\d{1,2}` (one or two digits, the next character not a digit). -/
def upto2 (cs : List Char) : Option (Nat × List Char) :=
  let ds := cs.takeWhile Char.isDigit
  if ds.length = 0 ∨ 2 < ds.length then none
  else some (digitVal ds, cs.drop ds.length)

/-- Consume one expected character. -/
def expectChar (c : Char) (cs : List Char) : Option (List Char) :=
  match cs with
  | x :: rest => if x = c then some rest else none
  | [] => none

/-! ## Civil calendar arithmetic (the fragment of JS `Date` the code uses) -/

/-- A civil date-time, the tuple a JS `Date` renders/parses under TZ=UTC. -/
structure Civil where
  year : Nat
  month : Nat
  day : Nat
  hour : Nat
  minute : Nat
  second : Nat
deriving DecidableEq, Repr

def isLeap (y : Nat) : Bool :=
  (y % 4 == 0 && y % 100 != 0) || y % 400 == 0

def daysInMonth (y m : Nat) : Nat :=
  if m = 2 then (if isLeap y then 29 else 28)
  else if m = 4 ∨ m = 6 ∨ m = 9 ∨ m = 11 then 30
  else 31

/-- Days since 1970-01-01 of a civil date (Gregorian, proleptic). -/
def daysFromCivil (y m d : Nat) : Int :=
  let yi : Int := (y : Int) - (if m ≤ 2 then 1 else 0)
  let era : Int := yi / 400
  let yoe : Int := yi - era * 400
  let mp : Int := if m ≤ 2 then (m : Int) + 9 else (m : Int) - 3
  let doy : Int := (153 * mp + 2) / 5 + (d : Int) - 1
  let doe : Int := yoe * 365 + yoe / 4 - yoe / 100 + doy
  era * 146097 + doe - 719468

/-- Civil date of a count of days since 1970-01-01. -/
def civilFromDays (z0 : Int) : Nat × Nat × Nat :=
  let z : Int := z0 + 719468
  let era : Int := z / 146097
  let doe : Int := z - era * 146097
  let yoe : Int := (doe - doe / 1460 + doe / 36524 - doe / 146096) / 365
  let y : Int := yoe + era * 400
  let doy : Int := doe - (365 * yoe + yoe / 4 - yoe / 100)
  let mp : Int := (5 * doy + 2) / 153
  let d : Int := doy - (153 * mp + 2) / 5 + 1
  let m : Int := if mp < 10 then mp + 3 else mp - 9
  ((if m ≤ 2 then y + 1 else y).toNat, m.toNat, d.toNat)

/-- JS `date.setDate(date.getDate() + n)`: calendar-day addition keeping the
time of day (the host timezone, UTC, has no daylight-saving shifts). -/
def addDays (c : Civil) (n : Int) : Civil :=
  let t := civilFromDays (daysFromCivil c.year c.month c.day + n)
  ⟨t.1, t.2.1, t.2.2, c.hour, c.minute, c.second⟩

/-- Seconds since the epoch of a civil date-time (TZ=UTC). -/
def civilToSecs (c : Civil) : Int :=
  daysFromCivil c.year c.month c.day * 86400 +
    ((c.hour * 3600 + c.minute * 60 + c.second : Nat) : Int)

/-- Civil date-time of a count of epoch seconds (TZ=UTC). -/
def civilFromSecs (z : Int) : Civil :=
  let day := z / 86400
  let r := (z % 86400).toNat
  let t := civilFromDays day
  ⟨t.1, t.2.1, t.2.2, r / 3600, (r % 3600) / 60, r % 60⟩

def pad2 (n : Nat) : String :=
  if n < 10 then "0" ++ toString n else toString n

def pad4 (n : Nat) : String :=
  if n < 10 then "000" ++ toString n
  else if n < 100 then "00" ++ toString n
  else if n < 1000 then "0" ++ toString n
  else toString n

def isoDayString (y m d : Nat) : String :=
  pad4 y ++ "-" ++ pad2 m ++ "-" ++ pad2 d

/-- Models `dateObj.toISOString().split('T')[0]` under TZ=UTC: the civil day, with
the ISO `24:00:00` end-of-day form rolled over to the next day as JS `Date`
does. -/
def toIsoDay (c : Civil) : String :=
  if c.hour = 24 then
    let t := civilFromDays (daysFromCivil c.year c.month c.day + 1)
    isoDayString t.1 t.2.1 t.2.2
  else isoDayString c.year c.month c.day

/-- Models `now.toLocaleString('zh-TW', { hour12: false })` under TZ=UTC
(`YYYY/M/D HH:MM:SS`; the exact ICU spacing is irrelevant to every claim,
only which instant is rendered matters). -/
def formatZhTW (c : Civil) : String :=
  toString c.year ++ "/" ++ toString c.month ++ "/" ++ toString c.day ++ " " ++
    pad2 c.hour ++ ":" ++ pad2 c.minute ++ ":" ++ pad2 c.second

/-- Models `d.toLocaleDateString('zh-TW', { timeZone: 'Asia/Taipei', year: 'numeric',
month: '2-digit', day: '2-digit' })` applied to a date already expressed in
campaign-local civil time (`YYYY/MM/DD`). -/
def formatDateZhTW (c : Civil) : String :=
  toString c.year ++ "/" ++ pad2 c.month ++ "/" ++ pad2 c.day

/-! ## The date parsers of `server.js` -/

/-- Group structure of `/^(\d{4})\/(\d{1,2})\/(\d{1,2})$/` on a character
list. -/
def matchSlashDate (cs : List Char) : Option (Nat × Nat × Nat) := do
  let (y, cs) ← exact4 cs
  let cs ← expectChar '/' cs
  let (mo, cs) ← upto2 cs
  let cs ← expectChar '/' cs
  let (d, cs) ← upto2 cs
  if cs = [] then some (y, mo, d) else none

/-- Function `parseSlashDate` of `server.js`: `"YYYY/M/D"` to the zero-padded
`"YYYY-MM-DD"`, `none` when the pattern does not match. -/
def parseSlashDate (str : String) : Option String :=
  match matchSlashDate (jsTrim str).data with
  | none => none
  | some (y, mo, d) => some (pad4 y ++ "-" ++ pad2 mo ++ "-" ++ pad2 d)

/-- Capture groups of
`/^(\d{4})\/(\d{1,2})\/(\d{1,2})\s*(上午|下午)\s*(\d{1,2}):(\d{1,2})(?::(\d{1,2}))?$/`;
`pm` is `true` for the afternoon marker `下午`. -/
structure CDTGroups where
  y : Nat
  mo : Nat
  d : Nat
  pm : Bool
  hh : Nat
  mi : Nat
  ss : Nat
deriving DecidableEq, Repr

/-- Matching the AM/PM pattern above against a character list; a missing
seconds group is already defaulted to `0` (the source's
`if (!ss) ss = '0'`). -/
def matchCDT (cs : List Char) : Option CDTGroups := do
  let (y, cs) ← exact4 cs
  let cs ← expectChar '/' cs
  let (mo, cs) ← upto2 cs
  let cs ← expectChar '/' cs
  let (d, cs) ← upto2 cs
  let cs := cs.dropWhile isJsSpace
  let (pm, cs) ←
    (match cs with
     | '上' :: '午' :: rest => some (false, rest)
     | '下' :: '午' :: rest => some (true, rest)
     | _ => none : Option (Bool × List Char))
  let cs := cs.dropWhile isJsSpace
  let (hh, cs) ← upto2 cs
  let cs ← expectChar ':' cs
  let (mi, cs) ← upto2 cs
  match cs with
  | [] => some ⟨y, mo, d, pm, hh, mi, 0⟩
  | ':' :: rest => do
    let (ss, rest) ← upto2 rest
    if rest = [] then some ⟨y, mo, d, pm, hh, mi, ss⟩ else none
  | _ => none

/-- Validity of `new Date("YYYY-MM-DDTHH:MM:SS")` for the string the parser
assembles: the year is rendered unpadded so it must have four digits, the
date must exist on the Gregorian calendar, and the time must be a valid ISO
time (`24:00:00` accepted as end-of-day midnight). -/
def jsIsoValid (y mo d hh mi ss : Nat) : Prop :=
  1000 ≤ y ∧ 1 ≤ mo ∧ mo ≤ 12 ∧ 1 ≤ d ∧ d ≤ daysInMonth y mo ∧
    ((hh ≤ 23 ∧ mi ≤ 59 ∧ ss ≤ 59) ∨ (hh = 24 ∧ mi = 0 ∧ ss = 0))

instance (y mo d hh mi ss : Nat) : Decidable (jsIsoValid y mo d hh mi ss) := by
  unfold jsIsoValid; infer_instance

/-- Function `parseChineseDateTime` of `server.js`: parse
`"YYYY/M/D 上午|下午 H:MM[:SS]"`, add 12 to an afternoon hour below 12
(hours of 12 and above, and every morning hour, are kept), assemble an ISO
string and hand it to `new Date`; `none` when the pattern does not match or
the assembled instant is invalid. -/
def parseChineseDateTime (str : String) : Option Civil :=
  match matchCDT (jsTrim str).data with
  | none => none
  | some g =>
    let hh := if g.pm = true ∧ g.hh < 12 then g.hh + 12 else g.hh
    if jsIsoValid g.y g.mo g.d hh g.mi g.ss then some ⟨g.y, g.mo, g.d, hh, g.mi, g.ss⟩
    else none

/-- Models `new Date(isoDate + 'T00:00:00')` together with its `isNaN` guard, for
the canonical `"YYYY-MM-DD"` strings `parseSlashDate` produces. -/
def dateFromIsoMidnight (s : String) : Option Civil :=
  match s.data with
  | [y1, y2, y3, y4, '-', m1, m2, '-', d1, d2] =>
    if (y1.isDigit && y2.isDigit && y3.isDigit && y4.isDigit &&
        m1.isDigit && m2.isDigit && d1.isDigit && d2.isDigit) = true then
      let y := digitVal [y1, y2, y3, y4]
      let mo := digitVal [m1, m2]
      let d := digitVal [d1, d2]
      if 1 ≤ mo ∧ mo ≤ 12 ∧ 1 ≤ d ∧ d ≤ daysInMonth y mo then
        some ⟨y, mo, d, 0, 0, 0⟩
      else none
    else none
  | _ => none

/-- JS `parseInt(s, 10)`: strip leading whitespace, an optional sign, then
take the decimal digit prefix; `none` models `NaN`. -/
def jsParseInt10 (s : String) : Option Int :=
  let cs := s.data.dropWhile isJsSpace
  let (sign, cs) : Int × List Char :=
    match cs with
    | '-' :: rest => (-1, rest)
    | '+' :: rest => (1, rest)
    | _ => (1, cs)
  let ds := cs.takeWhile Char.isDigit
  if ds.isEmpty then none else some (sign * (digitVal ds : Int))

/-! ## The spreadsheet-backed store -/

/-- One row of the 抽獎紀錄 (draw record) sheet; a `none` field models an
`undefined` cell. Columns: A = 抽獎時間 drawTime, B = 電話號碼 phone,
C = 中獎獎項 prize, D = 到期日 expire, E = 兌獎日期 claimed. -/
structure Row where
  drawTime : Option String
  phone : Option String
  prize : Option String
  expire : Option String
  claimed : Option String
deriving DecidableEq, Repr

/-- The 設定 (settings) sheet: ordered `(項目, 設定值)` pairs. -/
def Settings := List (String × String)

/-- Function `getSettingValue` of `server.js`: the 設定值 of the first row whose 項目
matches, `''` when no row matches. -/
def getSettingValue (settings : Settings) (name : String) : String :=
  match settings.find? (fun kv => kv.1 == name) with
  | some kv => kv.2
  | none => ""

/-! ## Phone normalization -/

/-- Function `normalizePhone` (and the inline `phone.replace(/^0+/, '')` calls):
strip every leading `'0'`, change nothing else. -/
def normalizePhone (phone : String) : String :=
  String.mk (phone.data.dropWhile (fun c => c == '0'))

/-! ## Duplicate-draw check (`checkDrawOnDeadline` of `server.js`) -/

/-- The JSON object `checkDrawOnDeadline` resolves with:
`{exists: true, time, prize}` or `{exists: false}`. -/
structure CheckResult where
  exists_ : Bool
  time : Option String
  prize : Option String
deriving DecidableEq, Repr

/-- One iteration of the `server.js` scan loop: a row is a hit when its
電話號碼 cell equals the input phone verbatim, its 抽獎時間 cell is present
and non-empty, parses with `parseChineseDateTime`, and falls on the deadline
day `dlStr`; the hit carries the raw stored time and prize. -/
def checkRow (dlStr phone : String) (row : Row) :
    Option (Option String × Option String) :=
  if row.phone = some phone then
    match row.drawTime with
    | none => none
    | some t =>
      if t = "" then none
      else
        match parseChineseDateTime t with
        | none => none
        | some dt => if toIsoDay dt = dlStr then some (some t, row.prize) else none
  else none

/-- The `for (const row of rows)` early-return scan of `server.js`. -/
def findDup (dlStr phone : String) : List Row →
    Option (Option String × Option String)
  | [] => none
  | r :: rs =>
    match checkRow dlStr phone r with
    | some x => some x
    | none => findDup dlStr phone rs

/-- Function `checkDrawOnDeadline` of `server.js`: resolve 活動截止日, fail open on an
absent or unparseable deadline, then scan the records for a same-phone row on
the deadline day. Note: this variant compares the stored phone **verbatim**
against the input phone. -/
def checkDrawOnDeadline (settings : Settings) (store : List Row)
    (phone : String) : CheckResult :=
  let rawDeadline := getSettingValue settings "活動截止日"
  if rawDeadline = "" then ⟨false, none, none⟩
  else
    match parseSlashDate (jsTrim rawDeadline) with
    | none => ⟨false, none, none⟩
    | some isoDate =>
      match dateFromIsoMidnight isoDate with
      | none => ⟨false, none, none⟩
      | some dl =>
        let dlStr := toIsoDay dl
        match findDup dlStr phone store with
        | some (t, p) => ⟨true, t, p⟩
        | none => ⟨false, none, none⟩

/-! ## Duplicate-draw check, `part_000` first variant (the
「修正後的 checkDrawOnDeadline」) -/

/-- Models `row['電話號碼'] ? row['電話號碼'].replace(/^0+/, '') : ''` of that
variant. -/
def rowPhoneV0 (row : Row) : String :=
  normalizePhone (row.phone.getD "")

/-- Scan-loop body of the `part_000` variant: like `checkRow`, but the stored
phone is normalized before comparison with the (already normalized) input. -/
def checkRowV0 (dlStr normPhone : String) (row : Row) :
    Option (Option String × Option String) :=
  if rowPhoneV0 row = normPhone then
    match row.drawTime with
    | none => none
    | some t =>
      if t = "" then none
      else
        match parseChineseDateTime t with
        | none => none
        | some dt => if toIsoDay dt = dlStr then some (some t, row.prize) else none
  else none

def findDupV0 (dlStr normPhone : String) : List Row →
    Option (Option String × Option String)
  | [] => none
  | r :: rs =>
    match checkRowV0 dlStr normPhone r with
    | some x => some x
    | none => findDupV0 dlStr normPhone rs

/-- Function `checkDrawOnDeadline` of the first `part_000` variant: both the input
phone and each stored phone are normalized before comparison. -/
def checkDrawOnDeadlineV0 (settings : Settings) (store : List Row)
    (phone : String) : CheckResult :=
  let normalizedPhone := normalizePhone phone
  let rawDeadline := getSettingValue settings "活動截止日"
  if rawDeadline = "" then ⟨false, none, none⟩
  else
    match parseSlashDate rawDeadline with
    | none => ⟨false, none, none⟩
    | some isoDate =>
      match dateFromIsoMidnight isoDate with
      | none => ⟨false, none, none⟩
      | some dl =>
        let dlStr := toIsoDay dl
        match findDupV0 dlStr normalizedPhone store with
        | some (t, p) => ⟨true, t, p⟩
        | none => ⟨false, none, none⟩

/-! ## Draw recording -/

/-- The row `recordDraw` of `server.js` appends: A = `now` rendered with
`toLocaleString`, B = the phone as passed (server.js does not normalize it
here), C = the prize, D = `now` plus 兌獎有效日期 days (`parseInt` with a
`|| 0` default, which also maps an explicit `0` to `0`), E left unwritten. -/
def mkDrawRow (settings : Settings) (phone prize : String) (now : Civil) : Row :=
  let validDaysStr := getSettingValue settings "兌獎有效日期"
  let validDays : Int := (jsParseInt10 validDaysStr).getD 0
  let recordTimeStr := formatZhTW now
  let expire := addDays now validDays
  let expireStr := formatZhTW expire
  ⟨some recordTimeStr, some phone, some prize, some expireStr, none⟩

/-- Function `recordDraw` of `server.js`: `sheet.addRow` appends one row. -/
def recordDraw (settings : Settings) (store : List Row)
    (phone prize : String) (now : Civil) : List Row :=
  store ++ [mkDrawRow settings phone prize now]

/-- The row appended by the `part_000` second-variant `recordDraw`
(columns A/B/C only, D and E untouched). -/
def mkDrawRowB (phone prize : String) (now : Civil) : Row :=
  ⟨some (formatZhTW now), some phone, some prize, none, none⟩

def recordDrawB (store : List Row) (phone prize : String) (now : Civil) :
    List Row :=
  store ++ [mkDrawRowB phone prize now]

/-- The row appended by the `part_000` third-variant `recordDraw`: the draw
date rendered date-only, the phone normalized, and 到期日 computed as
`new Date(now.getTime() + redemptionDays * 24*60*60*1000)`. -/
def mkDrawRowMs (settings : Settings) (phone prize : String) (now : Civil) :
    Row :=
  let recordTimeStr := formatDateZhTW now
  let redemptionDaysRaw := getSettingValue settings "兌獎有效日期"
  let redemptionDays : Int := (jsParseInt10 redemptionDaysRaw).getD 0
  let expireTime := civilFromSecs (civilToSecs now + redemptionDays * 86400)
  let expireDateStr := formatDateZhTW expireTime
  ⟨some recordTimeStr, some (normalizePhone phone), some prize,
    some expireDateStr, none⟩

def recordDrawMs (settings : Settings) (store : List Row)
    (phone prize : String) (now : Civil) : List Row :=
  store ++ [mkDrawRowMs settings phone prize now]

/-! ## History query (`queryHistory` of `server.js`) -/

/-- The projected history entry `{time, phone, prize, expire, claimed}`. -/
structure HistEntry where
  time : String
  phone : String
  prize : String
  expire : String
  claimed : String
deriving DecidableEq, Repr

/-- The `.map` body of `queryHistory`: every missing cell defaults to `''`. -/
def projectRow (r : Row) : HistEntry :=
  ⟨r.drawTime.getD "", r.phone.getD "", r.prize.getD "", r.expire.getD "",
    r.claimed.getD ""⟩

/-- Function `queryHistory` of `server.js` (and of `part_002`): filter the rows whose
電話號碼 cell equals `phone.replace(/^0+/, '')` **verbatim**, project each to
the five-field entry. -/
def queryHistory (store : List Row) (phone : String) : List HistEntry :=
  let normalizedPhone := String.mk (phone.data.dropWhile (fun c => c == '0'))
  (store.filter (fun r => r.phone == some normalizedPhone)).map projectRow

/-- Stated from the claim's words, for comparison with `queryHistory`:
return the records whose **normalized** stored phone matches the normalized
input phone. -/
def queryHistoryClaim (store : List Row) (phone : String) : List HistEntry :=
  (store.filter
      (fun r => normalizePhone (r.phone.getD "") == normalizePhone phone)).map
    projectRow

/-! ## The `/api/record-draw` route of `server.js` -/

/-- Responses of `POST /api/record-draw`: `400 "FAIL"`, the
`{status:'alreadyDrawn', time, prize}` JSON, or `200 "OK"`. -/
inductive DrawResponse where
  | fail400
  | alreadyDrawn (time prize : Option String)
  | ok
deriving DecidableEq, Repr

/-- The `/api/record-draw` handler of `server.js`: reject a missing/empty
phone or prize, otherwise check for a deadline-day duplicate; on a hit
answer `alreadyDrawn` with the stored time and prize and write nothing, else
append one record and answer `OK`. -/
def recordDrawEndpoint (settings : Settings) (store : List Row)
    (phone prize : Option String) (now : Civil) :
    DrawResponse × List Row :=
  if phone.getD "" = "" ∨ prize.getD "" = "" then (.fail400, store)
  else
    let p := phone.getD ""
    let pr := prize.getD ""
    let check := checkDrawOnDeadline settings store p
    if check.exists_ then (.alreadyDrawn check.time check.prize, store)
    else (.ok, recordDraw settings store p pr now)

/-! ## Weighted draw (`app.post('/draw')` of the last `part_000` variant) -/

/-- A prize row `{name: row[0], rate: parseFloat(row[1]) || 0}`. -/
structure PrizeRate where
  name : Option String
  rate : ℚ
deriving DecidableEq, Repr

/-- The `for (let p of prizes)` loop: select the first prize whose rate
exceeds the remaining random mass, subtracting as it goes. -/
def selectLoop : List PrizeRate → ℚ → Option PrizeRate
  | [], _ => none
  | p :: ps, rand => if rand < p.rate then some p else selectLoop ps (rand - p.rate)

/-- The weighted selection of the `/draw` route: `rand = r * sumRate` for a
uniform `r`, run the loop, and fall back to the first prize when nothing was
selected (the all-zero-rates case). -/
def drawSelect (prizes : List PrizeRate) (r : ℚ) : Option PrizeRate :=
  let sumRate := (prizes.map PrizeRate.rate).sum
  let rand := r * sumRate
  match selectLoop prizes rand with
  | some p => some p
  | none => prizes.head?

/-! ## Helper lemmas -/

lemma dropWhile_replicate_zero (n : Nat) (l : List Char) :
    (List.replicate n '0' ++ l).dropWhile (fun c => c == '0') =
      l.dropWhile (fun c => c == '0') := by
  induction n with
  | zero => simp
  | succ k ih => simp [List.replicate_succ, ih]

lemma takeWhile_dropWhile_nil (p : Char → Bool) (l : List Char) :
    ((l.dropWhile p).takeWhile p) = [] := by
  induction l with
  | nil => simp
  | cons c t ih =>
    by_cases hc : p c
    · simpa [List.dropWhile_cons, hc] using ih
    · simp [List.dropWhile_cons, hc, List.takeWhile_cons, hc]

lemma dropWhile_idem (p : Char → Bool) (l : List Char) :
    (l.dropWhile p).dropWhile p = l.dropWhile p := by
  induction l with
  | nil => simp
  | cons c t ih =>
    by_cases hc : p c
    · simpa [List.dropWhile_cons, hc] using ih
    · simp [List.dropWhile_cons, hc]

lemma exists_replicate_decomp (l : List Char) :
    ∃ k, l = List.replicate k '0' ++ l.dropWhile (fun c => c == '0') := by
  induction l with
  | nil => exact ⟨0, rfl⟩
  | cons c t ih =>
    by_cases hc : (c == '0') = true
    · obtain ⟨k, hk⟩ := ih
      refine ⟨k + 1, ?_⟩
      have hc' : c = '0' := beq_iff_eq.mp hc
      simp only [List.dropWhile_cons, hc, if_true, List.replicate_succ,
        List.cons_append, hc']
      exact congrArg _ hk
    · exact ⟨0, by simp [List.dropWhile_cons, hc]⟩

lemma selectLoop_all_zero (l : List PrizeRate) (hz : ∀ q ∈ l, q.rate = 0) :
    selectLoop l 0 = none := by
  induction l with
  | nil => rfl
  | cons p ps ih =>
    have hp : p.rate = 0 := hz p (by simp)
    have : ¬ ((0 : ℚ) < p.rate) := by rw [hp]; exact lt_irrefl 0
    simp only [selectLoop, if_neg this, hp, sub_zero]
    exact ih (fun q hq => hz q (by simp [hq]))

/-- Inversion for a scan-loop hit: a hit carries the matched row's raw
stored time and prize, and the row's phone equals the input verbatim. -/
lemma checkRow_some_inv {dlStr phone : String} {r : Row}
    {t p : Option String} (h : checkRow dlStr phone r = some (t, p)) :
    r.phone = some phone ∧ t = r.drawTime ∧ p = r.prize := by
  unfold checkRow at h
  split at h
  case isFalse hp => exact absurd h (by simp)
  case isTrue hp =>
    split at h
    · exact absurd h (by simp)
    · next ts heq =>
      split at h
      · exact absurd h (by simp)
      · split at h
        · exact absurd h (by simp)
        · next dt hpd =>
          split at h
          · simp only [Option.some.injEq, Prod.mk.injEq] at h
            exact ⟨hp, by simp [heq, h.1.symm], by simp [h.2.symm]⟩
          · exact absurd h (by simp)

lemma findDup_some_inv {dlStr phone : String} {rows : List Row}
    {t p : Option String} (h : findDup dlStr phone rows = some (t, p)) :
    ∃ r ∈ rows, r.phone = some phone ∧ t = r.drawTime ∧ p = r.prize := by
  induction rows with
  | nil => exact absurd h (by simp [findDup])
  | cons r rs ih =>
    unfold findDup at h
    cases hc : checkRow dlStr phone r with
    | some x =>
      rw [hc] at h
      obtain ⟨t', p'⟩ := x
      obtain ⟨h1, h2⟩ := Prod.mk.injEq .. ▸ Option.some.injEq .. ▸ h
      obtain ⟨ha, hb, hd⟩ := checkRow_some_inv hc
      exact ⟨r, by simp, ha, by simp_all, by simp_all⟩
    | none =>
      rw [hc] at h
      obtain ⟨r', hr', hprop⟩ := ih h
      exact ⟨r', by simp [hr'], hprop⟩

/-- The claim-side description of a record that counts as a deadline-day
draw: its 抽獎時間 cell is present, non-empty, parses, and its normalized
day equals the deadline day string. -/
def recMatch (dlStr : String) (r : Row) : Prop :=
  ∃ t, r.drawTime = some t ∧ t ≠ "" ∧
    ∃ dt, parseChineseDateTime t = some dt ∧ toIsoDay dt = dlStr

lemma checkRow_isSome_iff (dlStr phone : String) (r : Row) :
    (checkRow dlStr phone r).isSome = true ↔
      (r.phone = some phone ∧ recMatch dlStr r) := by
  unfold checkRow
  split
  case isFalse hp => simp [recMatch, hp]
  case isTrue hp =>
    split
    · next heq => simp [recMatch, hp, heq]
    · next ts heq =>
      split
      · next h0 => simp [recMatch, hp, heq, h0]
      · next h0 =>
        split
        · next hpd => simp [recMatch, hp, heq, h0, hpd]
        · next dt hpd =>
          split
          · next hday => simp [recMatch, hp, heq, h0, hpd, hday]
          · next hday => simp [recMatch, hp, heq, h0, hpd, hday]

lemma findDup_isSome_iff (dlStr phone : String) (rows : List Row) :
    (findDup dlStr phone rows).isSome = true ↔
      ∃ r ∈ rows, r.phone = some phone ∧ recMatch dlStr r := by
  induction rows with
  | nil => simp [findDup]
  | cons r rs ih =>
    unfold findDup
    cases hc : checkRow dlStr phone r with
    | some x =>
      have := (checkRow_isSome_iff dlStr phone r).mp (by simp [hc])
      simp only [Option.isSome_some, true_iff]
      exact ⟨r, by simp, this⟩
    | none =>
      have hnot := (checkRow_isSome_iff dlStr phone r)
      rw [hc] at hnot
      simp only [Option.isSome_none, Bool.false_eq_true, false_iff] at hnot
      rw [ih]
      constructor
      · rintro ⟨r', hr', hprop⟩
        exact ⟨r', by simp [hr'], hprop⟩
      · rintro ⟨r', hr', hprop⟩
        rcases List.mem_cons.mp hr' with h | h
        · exact absurd (h ▸ hprop) hnot
        · exact ⟨r', h, hprop⟩

lemma checkRowV0_isSome_iff (dlStr normPhone : String) (r : Row) :
    (checkRowV0 dlStr normPhone r).isSome = true ↔
      (rowPhoneV0 r = normPhone ∧ recMatch dlStr r) := by
  unfold checkRowV0
  split
  case isFalse hp => simp [recMatch, hp]
  case isTrue hp =>
    split
    · next heq => simp [recMatch, hp, heq]
    · next ts heq =>
      split
      · next h0 => simp [recMatch, hp, heq, h0]
      · next h0 =>
        split
        · next hpd => simp [recMatch, hp, heq, h0, hpd]
        · next dt hpd =>
          split
          · next hday => simp [recMatch, hp, heq, h0, hpd, hday]
          · next hday => simp [recMatch, hp, heq, h0, hpd, hday]

lemma findDupV0_isSome_iff (dlStr normPhone : String) (rows : List Row) :
    (findDupV0 dlStr normPhone rows).isSome = true ↔
      ∃ r ∈ rows, rowPhoneV0 r = normPhone ∧ recMatch dlStr r := by
  induction rows with
  | nil => simp [findDupV0]
  | cons r rs ih =>
    unfold findDupV0
    cases hc : checkRowV0 dlStr normPhone r with
    | some x =>
      have := (checkRowV0_isSome_iff dlStr normPhone r).mp (by simp [hc])
      simp only [Option.isSome_some, true_iff]
      exact ⟨r, by simp, this⟩
    | none =>
      have hnot := (checkRowV0_isSome_iff dlStr normPhone r)
      rw [hc] at hnot
      simp only [Option.isSome_none, Bool.false_eq_true, false_iff] at hnot
      rw [ih]
      constructor
      · rintro ⟨r', hr', hprop⟩
        exact ⟨r', by simp [hr'], hprop⟩
      · rintro ⟨r', hr', hprop⟩
        rcases List.mem_cons.mp hr' with h | h
        · exact absurd (h ▸ hprop) hnot
        · exact ⟨r', h, hprop⟩

/-- A `true` check result comes from a stored row with that phone, and it
reports that row's raw stored time and prize. -/
lemma checkDrawOnDeadline_true_inv {settings : Settings} {store : List Row}
    {phone : String} {t p : Option String}
    (h : checkDrawOnDeadline settings store phone = ⟨true, t, p⟩) :
    ∃ r ∈ store, r.phone = some phone ∧ t = r.drawTime ∧ p = r.prize := by
  unfold checkDrawOnDeadline at h
  dsimp only at h
  split at h
  · exact absurd h (by simp)
  · split at h
    · exact absurd h (by simp)
    · split at h
      · exact absurd h (by simp)
      · split at h
        · next t' p' heq =>
          simp only [CheckResult.mk.injEq] at h
          obtain ⟨-, h1, h2⟩ := h
          subst h1; subst h2
          exact findDup_some_inv heq
        · exact absurd h (by simp)

/-- The millisecond-based expiry `new Date(now.getTime() + n*24*60*60*1000)`
of the `part_000` third variant lands on the same civil instant as the
`setDate`-based calendar-day addition, for any well-formed time of day. -/
lemma civilFromSecs_shift (c : Civil) (n : Int)
    (hh : c.hour ≤ 23) (hm : c.minute ≤ 59) (hs : c.second ≤ 59) :
    civilFromSecs (civilToSecs c + n * 86400) = addDays c n := by
  have hRlt : (c.hour * 3600 + c.minute * 60 + c.second : Nat) < 86400 := by
    omega
  simp only [civilFromSecs, civilToSecs, addDays]
  set R : Nat := c.hour * 3600 + c.minute * 60 + c.second with hRdef
  set D : Int := daysFromCivil c.year c.month c.day with hDdef
  have hR0 : (0 : Int) ≤ (R : Int) := Int.natCast_nonneg R
  have hRlt' : ((R : Int)) < 86400 := by exact_mod_cast hRlt
  have hre : D * 86400 + (R : Int) + n * 86400 = (R : Int) + (D + n) * 86400 := by
    ring
  have hdiv : (D * 86400 + (R : Int) + n * 86400) / 86400 = D + n := by
    rw [hre, Int.add_mul_ediv_right _ _ (by norm_num : (86400 : Int) ≠ 0),
      Int.ediv_eq_zero_of_lt hR0 hRlt', zero_add]
  have hmod : (D * 86400 + (R : Int) + n * 86400) % 86400 = (R : Int) := by
    rw [hre, Int.add_mul_emod_self, Int.emod_eq_of_lt hR0 hRlt']
  rw [hdiv, hmod, Int.toNat_natCast]
  have h1 : R / 3600 = c.hour := by omega
  have h2 : (R % 3600) / 60 = c.minute := by omega
  have h3 : R % 60 = c.second := by omega
  rw [h1, h2, h3]

/-! ## The claims -/

/-- C3: For every phone, if the campaign deadline setting is absent (empty)
or does not parse as a recognized date, the duplicate-draw check returns
`{exists: false}` (fail open) rather than raising or blocking the draw. -/
theorem checkDrawOnDeadline_fail_open (settings : Settings) (store : List Row)
    (phone : String)
    (h : getSettingValue settings "活動截止日" = "" ∨
      parseSlashDate (jsTrim (getSettingValue settings "活動截止日")) = none) :
    checkDrawOnDeadline settings store phone = ⟨false, none, none⟩ := by
  unfold checkDrawOnDeadline
  dsimp only
  rcases h with h | h
  · rw [if_pos h]
  · by_cases h0 : getSettingValue settings "活動截止日" = ""
    · rw [if_pos h0]
    · rw [if_neg h0, h]

/-- C3 witness: with the deadline set to an unparseable string the check
fails open on a store that does contain a record for the phone. -/
theorem checkDrawOnDeadline_fail_open_witness :
    checkDrawOnDeadline [("活動截止日", "next week")]
      [⟨some "2025/3/26 上午 1:00:00", some "921000223", some "AAA", none, none⟩]
      "921000223" = ⟨false, none, none⟩ :=
  checkDrawOnDeadline_fail_open _ _ _ (Or.inr (by decide))

/-- C4: For every non-empty prize sequence whose rates are all zero, and for
every random value drawn, the weighted draw selector selects the first prize
in the sequence: it never fails and never selects a later prize. -/
theorem drawSelect_all_zero (p : PrizeRate) (ps : List PrizeRate) (r : ℚ)
    (hz : ∀ q ∈ p :: ps, q.rate = 0) :
    drawSelect (p :: ps) r = some p := by
  have hsum : ((p :: ps).map PrizeRate.rate).sum = 0 :=
    List.sum_eq_zero (by
      intro x hx
      obtain ⟨q, hq, hqx⟩ := List.mem_map.mp hx
      exact hqx ▸ hz q hq)
  have hloop : selectLoop (p :: ps) (r * ((p :: ps).map PrizeRate.rate).sum)
      = none := by
    rw [hsum, mul_zero]
    exact selectLoop_all_zero _ hz
  simp only [drawSelect, hloop]
  rfl

/-- C4 witness: the spec's `[0,0,0]` example selects the first prize. -/
theorem drawSelect_all_zero_witness :
    drawSelect [⟨some "A", 0⟩, ⟨some "B", 0⟩, ⟨some "C", 0⟩] (1 / 2) =
      some ⟨some "A", 0⟩ :=
  drawSelect_all_zero _ _ _ (by decide)

/-- C7: For every input string of the AM/PM form
`YYYY/M/D 上午|下午 H:MM[:SS]` (characterized by the source's own pattern
match), the afternoon marker maps any hour `h < 12` to `h + 12` while hours
of 12 and above and all morning-marker hours are kept unchanged (including
hour 12); and every string matching no recognized pattern yields `none`
(unparseable) rather than an error. -/
theorem parseChineseDateTime_spec :
    (∀ (s : String) (g : CDTGroups) (dt : Civil),
        matchCDT (jsTrim s).data = some g →
        parseChineseDateTime s = some dt →
        dt.hour = if g.pm = true ∧ g.hh < 12 then g.hh + 12 else g.hh)
    ∧ (∀ s : String,
        matchCDT (jsTrim s).data = none → parseChineseDateTime s = none) := by
  constructor
  · intro s g dt hmatch hres
    unfold parseChineseDateTime at hres
    rw [hmatch] at hres
    dsimp only at hres
    set hhAdj := if g.pm = true ∧ g.hh < 12 then g.hh + 12 else g.hh with hA
    split at hres
    · simp only [Option.some.injEq] at hres
      rw [← hres]
    · exact absurd hres (by simp)
  · intro s hmatch
    unfold parseChineseDateTime
    rw [hmatch]

/-- C7 witness: the source's own example `'2025/3/25 下午 3:08:20'` parses
with hour `3 + 12 = 15`, and an unrecognized string parses to `none`. -/
theorem parseChineseDateTime_spec_witness :
    ((⟨2025, 3, 25, 15, 8, 20⟩ : Civil).hour =
      if (⟨2025, 3, 25, true, 3, 8, 20⟩ : CDTGroups).pm = true ∧
          (⟨2025, 3, 25, true, 3, 8, 20⟩ : CDTGroups).hh < 12
        then (⟨2025, 3, 25, true, 3, 8, 20⟩ : CDTGroups).hh + 12
        else (⟨2025, 3, 25, true, 3, 8, 20⟩ : CDTGroups).hh)
    ∧ parseChineseDateTime "2025-03-25 15:08:20" = none :=
  ⟨parseChineseDateTime_spec.1 "2025/3/25 下午 3:08:20"
      ⟨2025, 3, 25, true, 3, 8, 20⟩ ⟨2025, 3, 25, 15, 8, 20⟩
      (by decide) (by decide),
    parseChineseDateTime_spec.2 "2025-03-25 15:08:20" (by decide)⟩

/-- C8: Phone strings that differ only in their leading-zero prefix
normalize identically; and every input's normalization is exactly the input
with its leading zeros removed: the remainder is preserved verbatim and the
result has no leading zero left. -/
theorem normalizePhone_leading_zeros :
    (∀ (n m : Nat) (s : String),
        normalizePhone (String.mk (List.replicate n '0' ++ s.data)) =
          normalizePhone (String.mk (List.replicate m '0' ++ s.data)))
    ∧ (∀ s : String, ∃ k,
        s.data = List.replicate k '0' ++ (normalizePhone s).data)
    ∧ (∀ s : String,
        (normalizePhone s).data.takeWhile (fun c => c == '0') = []) := by
  refine ⟨?_, ?_, ?_⟩
  · intro n m s
    unfold normalizePhone
    rw [dropWhile_replicate_zero, dropWhile_replicate_zero]
  · intro s
    exact exists_replicate_decomp s.data
  · intro s
    exact takeWhile_dropWhile_nil _ s.data

/-- C9: The draw recorder only ever appends: the appended row carries no
兌獎日期 (claimedAt) value, and every pre-existing row — in particular its
claimed field — is left untouched. This holds for the `server.js`
`recordDraw` and for the `part_000` A/B/C-only variant alike. -/
theorem recordDraw_never_writes_claimed (settings : Settings)
    (store : List Row) (phone prize : String) (now : Civil) :
    (∃ r, recordDraw settings store phone prize now = store ++ [r] ∧
        r.claimed = none)
    ∧ (recordDraw settings store phone prize now).take store.length = store
    ∧ (∃ r, recordDrawB store phone prize now = store ++ [r] ∧
        r.claimed = none ∧ r.expire = none)
    ∧ (recordDrawB store phone prize now).take store.length = store := by
  refine ⟨⟨mkDrawRow settings phone prize now, rfl, rfl⟩, ?_,
    ⟨mkDrawRowB phone prize now, rfl, rfl, rfl⟩, ?_⟩
  · exact List.take_left store _
  · exact List.take_left store _

/-- C10: Phone normalization is idempotent, and every all-zeros string
(including `"0"` and `"000"`) normalizes to the empty string, so all such
inputs are identified as the same person. -/
theorem normalizePhone_idempotent :
    (∀ s : String, normalizePhone (normalizePhone s) = normalizePhone s)
    ∧ (∀ n : Nat, normalizePhone (String.mk (List.replicate n '0')) = "")
    ∧ normalizePhone "0" = "" ∧ normalizePhone "000" = "" := by
  refine ⟨?_, ?_, by decide, by decide⟩
  · intro s
    unfold normalizePhone
    rw [dropWhile_idem]
  · intro n
    unfold normalizePhone
    have h := dropWhile_replicate_zero n []
    rw [List.append_nil] at h
    rw [h]
    rfl

/-- C2 counterexample: the claim's match condition — phones equal after
normalization and the record's 抽獎時間 on the deadline day — holds for this
store and input, the deadline resolves and parses, and yet the `server.js`
`checkDrawOnDeadline` reports no duplicate, because it compares the stored
phone `"0921000223"` verbatim against the input `"921000223"`. -/
theorem checkDrawOnDeadline_normalization_counterexample :
    normalizePhone "0921000223" = normalizePhone "921000223"
    ∧ parseChineseDateTime "2025/3/26 上午 1:00:00" =
        some ⟨2025, 3, 26, 1, 0, 0⟩
    ∧ toIsoDay ⟨2025, 3, 26, 1, 0, 0⟩ = "2025-03-26"
    ∧ parseSlashDate
        (jsTrim (getSettingValue [("活動截止日", "2025/3/26")] "活動截止日")) =
        some "2025-03-26"
    ∧ dateFromIsoMidnight "2025-03-26" = some ⟨2025, 3, 26, 0, 0, 0⟩
    ∧ toIsoDay ⟨2025, 3, 26, 0, 0, 0⟩ = "2025-03-26"
    ∧ checkDrawOnDeadline [("活動截止日", "2025/3/26")]
        [⟨some "2025/3/26 上午 1:00:00", some "0921000223", some "AAA",
          none, none⟩]
        "921000223" = ⟨false, none, none⟩ := by
  refine ⟨by decide, by decide, by decide, by decide, by decide, by decide,
    by decide⟩

/-- C2 (amended): with a configured, parseable deadline, the `server.js`
duplicate-draw check reports a duplicate iff some stored record's phone
equals the input phone **verbatim** (no normalization on either side — the
repaired `part_000` variant, second conjunct, is the one that normalizes
both sides as the claim stated) and the record's 抽獎時間 normalizes to the
deadline's calendar day; records with an absent, empty or unparseable
抽獎時間 never match. -/
theorem checkDrawOnDeadline_match_characterization :
    (∀ (settings : Settings) (store : List Row) (phone iso : String)
        (dl : Civil),
        getSettingValue settings "活動截止日" ≠ "" →
        parseSlashDate (jsTrim (getSettingValue settings "活動截止日")) =
          some iso →
        dateFromIsoMidnight iso = some dl →
        ((checkDrawOnDeadline settings store phone).exists_ = true ↔
          ∃ r ∈ store, r.phone = some phone ∧ recMatch (toIsoDay dl) r))
    ∧ (∀ (settings : Settings) (store : List Row) (phone iso : String)
        (dl : Civil),
        getSettingValue settings "活動截止日" ≠ "" →
        parseSlashDate (getSettingValue settings "活動截止日") = some iso →
        dateFromIsoMidnight iso = some dl →
        ((checkDrawOnDeadlineV0 settings store phone).exists_ = true ↔
          ∃ r ∈ store,
            normalizePhone (r.phone.getD "") = normalizePhone phone ∧
            recMatch (toIsoDay dl) r)) := by
  constructor
  · intro settings store phone iso dl h1 h2 h3
    unfold checkDrawOnDeadline
    dsimp only
    rw [if_neg h1, h2]
    dsimp only
    rw [h3]
    dsimp only
    have hiff := findDup_isSome_iff (toIsoDay dl) phone store
    cases hfd : findDup (toIsoDay dl) phone store with
    | some x =>
      obtain ⟨t, p⟩ := x
      rw [hfd] at hiff
      simp only [Option.isSome_some, true_iff] at hiff
      simpa using hiff
    | none =>
      rw [hfd] at hiff
      simp only [Option.isSome_none, Bool.false_eq_true, false_iff] at hiff
      simpa using hiff
  · intro settings store phone iso dl h1 h2 h3
    unfold checkDrawOnDeadlineV0
    dsimp only
    rw [if_neg h1, h2]
    dsimp only
    rw [h3]
    dsimp only
    have hiff := findDupV0_isSome_iff (toIsoDay dl) (normalizePhone phone) store
    cases hfd : findDupV0 (toIsoDay dl) (normalizePhone phone) store with
    | some x =>
      obtain ⟨t, p⟩ := x
      rw [hfd] at hiff
      simp only [Option.isSome_some, true_iff] at hiff
      simpa [rowPhoneV0] using hiff
    | none =>
      rw [hfd] at hiff
      simp only [Option.isSome_none, Bool.false_eq_true, false_iff] at hiff
      simpa [rowPhoneV0] using hiff

/-- C2 witness: on a concrete store whose single record has the input phone
verbatim and a deadline-day timestamp, the characterization produces the
matching record. -/
theorem checkDrawOnDeadline_match_characterization_witness :
    ∃ r ∈ [(⟨some "2025/3/26 上午 1:00:00", some "921000223", some "AAA",
        none, none⟩ : Row)],
      r.phone = some "921000223" ∧
      recMatch (toIsoDay ⟨2025, 3, 26, 0, 0, 0⟩) r :=
  (checkDrawOnDeadline_match_characterization.1
      [("活動截止日", "2025/3/26")]
      [⟨some "2025/3/26 上午 1:00:00", some "921000223", some "AAA",
        none, none⟩]
      "921000223" "2025-03-26" ⟨2025, 3, 26, 0, 0, 0⟩
      (by decide) (by decide) (by decide)).mp (by decide)

/-- C5 counterexample: for a store holding a record whose phone kept its
leading zero, the claim predicts that querying with the identical phone
returns the record (the normalized phones agree), but `queryHistory`
compares the stored cell against the normalized input and returns nothing. -/
theorem queryHistory_normalization_counterexample :
    queryHistory
      [⟨some "2025/3/26 上午 1:00:00", some "0921000223", some "AAA",
        none, none⟩] "0921000223" = []
    ∧ queryHistoryClaim
      [⟨some "2025/3/26 上午 1:00:00", some "0921000223", some "AAA",
        none, none⟩] "0921000223" =
      [⟨"2025/3/26 上午 1:00:00", "0921000223", "AAA", "", ""⟩] := by
  refine ⟨by decide, by decide⟩

/-- C5 (amended): the history query returns exactly the records whose stored
電話號碼 cell equals the **normalized input phone verbatim** (the stored
side is not normalized), each projected to `{time, phone, prize, expire,
claimed}` with every absent cell replaced by the empty string, in storage
(insertion) order — the result is the projection of a sublist of the
store. -/
theorem queryHistory_characterization (store : List Row) (phone : String) :
    queryHistory store phone =
      (store.filter (fun r => r.phone == some (normalizePhone phone))).map
        projectRow
    ∧ (∀ e, e ∈ queryHistory store phone ↔
        ∃ r ∈ store, r.phone = some (normalizePhone phone) ∧ e = projectRow r)
    ∧ (∃ sub : List Row, sub.Sublist store ∧
        queryHistory store phone = sub.map projectRow)
    ∧ (∀ r : Row, projectRow r =
        ⟨r.drawTime.getD "", r.phone.getD "", r.prize.getD "",
          r.expire.getD "", r.claimed.getD ""⟩) := by
  refine ⟨rfl, ?_, ⟨store.filter _, List.filter_sublist store, rfl⟩,
    fun r => rfl⟩
  intro e
  unfold queryHistory
  constructor
  · intro he
    obtain ⟨r, hr, hre⟩ := List.mem_map.mp he
    obtain ⟨hmem, hcond⟩ := List.mem_filter.mp hr
    exact ⟨r, hmem, beq_iff_eq.mp hcond, hre.symm⟩
  · rintro ⟨r, hmem, hcond, hre⟩
    exact List.mem_map.mpr ⟨r, List.mem_filter.mpr ⟨hmem, beq_iff_eq.mpr hcond⟩,
      hre.symm⟩

/-- C5 witness: a record stored with the already-normalized phone is found
and projected, with the absent 到期日 and 兌獎日期 cells as empty strings. -/
theorem queryHistory_characterization_witness :
    queryHistory
      [⟨some "2025/3/26 上午 1:00:00", some "921000223", some "AAA",
        none, none⟩] "0921000223" =
      [⟨"2025/3/26 上午 1:00:00", "921000223", "AAA", "", ""⟩] :=
  ((queryHistory_characterization
      [⟨some "2025/3/26 上午 1:00:00", some "921000223", some "AAA",
        none, none⟩] "0921000223").1).trans (by decide)

/-- C6: every draw-recorder call resolves the 兌獎有效日期 setting with a
0-day default when the setting is absent or does not parse to an integer,
and the appended record's 到期日 is the draw time plus that many calendar
days — for the `server.js` `setDate`-based recorder and for the `part_000`
millisecond-based recorder alike (the latter additionally normalizes the
stored phone and renders dates date-only). -/
theorem recordDraw_expiry_spec (settings : Settings) (store : List Row)
    (phone prize : String) (now : Civil)
    (hhr : now.hour ≤ 23) (hmin : now.minute ≤ 59) (hsec : now.second ≤ 59) :
    (settings.find? (fun kv => kv.1 == "兌獎有效日期") = none →
        (jsParseInt10 (getSettingValue settings "兌獎有效日期")).getD 0 = 0)
    ∧ (jsParseInt10 (getSettingValue settings "兌獎有效日期") = none →
        (jsParseInt10 (getSettingValue settings "兌獎有效日期")).getD 0 = 0)
    ∧ recordDraw settings store phone prize now =
        store ++ [⟨some (formatZhTW now), some phone, some prize,
          some (formatZhTW (addDays now
            ((jsParseInt10 (getSettingValue settings "兌獎有效日期")).getD 0))),
          none⟩]
    ∧ recordDrawMs settings store phone prize now =
        store ++ [⟨some (formatDateZhTW now), some (normalizePhone phone),
          some prize,
          some (formatDateZhTW (addDays now
            ((jsParseInt10 (getSettingValue settings "兌獎有效日期")).getD 0))),
          none⟩] := by
  refine ⟨?_, ?_, rfl, ?_⟩
  · intro h
    unfold getSettingValue
    rw [h]
    decide
  · intro h
    rw [h]
    rfl
  · unfold recordDrawMs mkDrawRowMs
    dsimp only
    rw [civilFromSecs_shift now _ hhr hmin hsec]

/-- C6 witness: the spec's own end-to-end numbers — redemption validity 6,
draw at `2025-03-26T10:00:00` — give the expiry day `2025-04-01`, and the
millisecond-based variant stores the normalized phone `"921000223"`. -/
theorem recordDraw_expiry_spec_witness :
    recordDraw [("兌獎有效日期", "6")] [] "0921000223" "AAA"
      ⟨2025, 3, 26, 10, 0, 0⟩ =
      [⟨some "2025/3/26 10:00:00", some "0921000223", some "AAA",
        some "2025/4/1 10:00:00", none⟩]
    ∧ recordDrawMs [("兌獎有效日期", "6")] [] "0921000223" "AAA"
      ⟨2025, 3, 26, 10, 0, 0⟩ =
      [⟨some "2025/03/26", some "921000223", some "AAA",
        some "2025/04/01", none⟩] :=
  have h := recordDraw_expiry_spec [("兌獎有效日期", "6")] [] "0921000223"
    "AAA" ⟨2025, 3, 26, 10, 0, 0⟩ (by decide) (by decide) (by decide)
  ⟨h.2.2.1.trans (by decide), h.2.2.2.trans (by decide)⟩

/-- C1: for every `/api/record-draw` request with phone and prize present,
if the duplicate-draw check finds an existing record for that phone on the
deadline day, the endpoint responds `alreadyDrawn` carrying that stored
record's raw time and prize and appends nothing (the store is unchanged);
otherwise it appends exactly one new record and responds `OK`. -/
theorem recordDrawEndpoint_spec (settings : Settings) (store : List Row)
    (phone prize : String) (now : Civil)
    (hp : phone ≠ "") (hpr : prize ≠ "") :
    ((checkDrawOnDeadline settings store phone).exists_ = true →
        recordDrawEndpoint settings store (some phone) (some prize) now =
          (.alreadyDrawn (checkDrawOnDeadline settings store phone).time
            (checkDrawOnDeadline settings store phone).prize, store)
        ∧ ∃ r ∈ store, r.phone = some phone ∧
            (checkDrawOnDeadline settings store phone).time = r.drawTime ∧
            (checkDrawOnDeadline settings store phone).prize = r.prize)
    ∧ ((checkDrawOnDeadline settings store phone).exists_ = false →
        recordDrawEndpoint settings store (some phone) (some prize) now =
          (.ok, store ++ [mkDrawRow settings phone prize now])) := by
  have hcond : ¬ ((some phone).getD "" = "" ∨ (some prize).getD "" = "") := by
    simp [hp, hpr]
  constructor
  · intro hex
    constructor
    · unfold recordDrawEndpoint
      rw [if_neg hcond]
      simp only [Option.getD_some]
      rw [if_pos hex]
    · cases hval : checkDrawOnDeadline settings store phone with
      | mk e t p =>
        rw [hval] at hex
        dsimp only at hex
        subst hex
        simpa [hval] using checkDrawOnDeadline_true_inv hval
  · intro hex
    unfold recordDrawEndpoint
    rw [if_neg hcond]
    simp only [Option.getD_some]
    rw [if_neg (by simp [hex])]
    rfl

/-- C1 witness: a second same-day submission against a store already holding
the phone's deadline-day record answers `alreadyDrawn` with the stored time
and prize and leaves the store unchanged. -/
theorem recordDrawEndpoint_spec_witness :
    recordDrawEndpoint [("活動截止日", "2025/3/26")]
      [⟨some "2025/3/26 上午 1:00:00", some "921000223", some "AAA",
        none, none⟩]
      (some "921000223") (some "BBB") ⟨2025, 3, 26, 10, 0, 0⟩ =
      (.alreadyDrawn (some "2025/3/26 上午 1:00:00") (some "AAA"),
        [⟨some "2025/3/26 上午 1:00:00", some "921000223", some "AAA",
          none, none⟩]) :=
  (((recordDrawEndpoint_spec [("活動截止日", "2025/3/26")]
      [⟨some "2025/3/26 上午 1:00:00", some "921000223", some "AAA",
        none, none⟩]
      "921000223" "BBB" ⟨2025, 3, 26, 10, 0, 0⟩
      (by decide) (by decide)).1 (by decide)).1).trans (by decide)

end GasLottery
